import Mathlib

/-!
# Verification of the smolagents-go agent runtime

A shallow embedding, translated from the Go sources, of:
* the transcript/memory model (`pkg/memory/memory.go`),
* the tool abstraction (`pkg/tools/tools.go`: schema derivation, argument
  preparation/conversion, `Execute`),
* the agent control loop and its two step strategies
  (`pkg/agents/agents.go` and the `ToolCallingAgent`/`CodeAgent` sources),
* the response parsers (`extractJSON`, `extractCodeBlocks`,
  `extractToolCallFromCode`, and the slice of `encoding/json` unmarshalling
  the agents rely on).

Go machine values that flow through the agent (`any`) are modelled by the
closed universe `GoVal`; Go strings are modelled by `String`/`List Char`
(all inputs exercised here are ASCII, so byte indices and rune indices
coincide).  Wall-clock timestamps are abstracted to a `completed` flag on
steps: no claim concerns the actual times.  Go's `float64` carries no
arithmetic in this code base (parsed literals are only stored), so floats
are represented by their literal text.

The embedding deliberately preserves the aliasing behaviour of the Go
memory code: `Memory.curStep` holds the struct that `AddToolCall` and the
step strategies mutate, while `Memory.Steps` stores the value copy that was
appended when the step was opened (Go `append` copies the struct), exactly
as in `pkg/memory/memory.go`.
-/

namespace Smol

/-- Message roles, from `pkg/models/models.go`. -/
inductive Role where
  | system
  | user
  | assistant
  | tool
deriving DecidableEq

/-- A chat message, from `pkg/models/models.go` (`Message`).
`name` is set only for tool messages. -/
structure Message where
  role : Role
  content : String
  name : String := ""
deriving DecidableEq

/-- The closed universe of Go `any` values flowing through the agent.
`vfloat` carries the literal text of a `float64` (no arithmetic is ever
performed on floats in the embedded code).  `verr` is a non-nil value of an
error type; `vnil` is the nil interface (also the nil error).
`vperson` is a representative struct type (mirroring the `Person` struct
exercised by the repository's own tool tests). -/
inductive GoVal where
  | vnil
  | vstr (s : String)
  | vint (n : Int)
  | vbool (b : Bool)
  | vfloat (lit : String)
  | vperson (name : String) (age : Int)
  | vmap (fields : List (String × GoVal))
  | varr (elems : List GoVal)
  | verr (msg : String)

/-- Named-argument mappings (`map[string]any` in Go), as association lists
with distinct keys; lookup returns the first (only) binding. -/
def lookupA (l : List (String × GoVal)) (k : String) : Option GoVal :=
  match l with
  | [] => none
  | (k', v) :: rest => if k' = k then some v else lookupA rest k

/-- Go map assignment `m[k] = v`: overwrites any existing binding. -/
def insertA (l : List (String × GoVal)) (k : String) (v : GoVal) :
    List (String × GoVal) :=
  (l.filter (fun p => p.1 ≠ k)) ++ [(k, v)]

/-! ## Transcript / Memory (`pkg/memory/memory.go`)

`ToolCall`, `Step` and `Memory` translate the Go structs.  The
`EndTimestamp` field is abstracted to the `completed` flag.  Crucially, the
Go code does `m.curStep = &step.Step` followed by
`m.Steps = append(m.Steps, step.Step)`: the slice stores a *copy* of the
struct, while `curStep` points at the original, so later mutations through
`curStep` (tool calls, message appends, completion stamps) never reach the
copy stored in `Steps`.  The model keeps `curStep` as a separate record to
preserve exactly that behaviour. -/

/-- `memory.ToolCall`: one recorded tool invocation.  `error` is the empty
string on success (Go stores `err.Error()` only when `err != nil`). -/
structure ToolCallRec where
  name : String
  arguments : List (String × GoVal)
  output : GoVal
  error : String

/-- `memory.Step` (shared part of the four step kinds). -/
structure StepRec where
  type : String
  messages : List Message
  toolCalls : List ToolCallRec
  completed : Bool

/-- `memory.Memory`. -/
structure Memory where
  steps : List StepRec
  curStep : Option StepRec

/-- `memory.NewMemory`. -/
def newMemory : Memory := { steps := [], curStep := none }

/-- Common body of `AddTaskStep` / `AddSystemPromptStep` / `AddActionStep` /
`AddPlanningStep`: build the step, point `curStep` at the original, append a
value copy to `Steps`. -/
def memAddStep (m : Memory) (ty : String) (messages : List Message) : Memory :=
  let s : StepRec := { type := ty, messages := messages, toolCalls := [], completed := false }
  { steps := m.steps ++ [s], curStep := some s }

/-- `Memory.AddTaskStep` (the extra `Task` payload is not part of the shared
`Step` struct that the views read and is dropped here). -/
def memAddTaskStep (m : Memory) (messages : List Message) : Memory :=
  memAddStep m "task" messages

/-- `Memory.AddSystemPromptStep`. -/
def memAddSystemPromptStep (m : Memory) (messages : List Message) : Memory :=
  memAddStep m "system_prompt" messages

/-- `Memory.AddActionStep`. -/
def memAddActionStep (m : Memory) (messages : List Message) : Memory :=
  memAddStep m "action" messages

/-- `Memory.AddPlanningStep`. -/
def memAddPlanningStep (m : Memory) (messages : List Message) : Memory :=
  memAddStep m "planning" messages

/-- `Memory.AddToolCall`: no-op when no step is open; otherwise appends the
record to the *current step struct* (`m.curStep.ToolCalls`), which is the
original the Go pointer refers to — the copy in `Steps` is untouched. -/
def memAddToolCall (m : Memory) (name : String) (args : List (String × GoVal))
    (output : GoVal) (err : Option String) : Memory :=
  match m.curStep with
  | none => m
  | some s =>
    let rec' : ToolCallRec :=
      { name := name, arguments := args, output := output, error := err.getD "" }
    { m with curStep := some { s with toolCalls := s.toolCalls ++ [rec'] } }

/-- `Memory.CompleteCurrentStep`: stamps the end time on the current step
struct (again the detached original, not the stored copy) and clears
`curStep`. -/
def memCompleteCurrentStep (m : Memory) : Memory :=
  match m.curStep with
  | none => m
  | some _ => { m with curStep := none }

/-- Message appends performed by the step strategies
(`step.Messages = append(step.Messages, …)`) go to the step struct the
pointer refers to, i.e. `curStep`. -/
def memAppendCurMessages (m : Memory) (msgs : List Message) : Memory :=
  match m.curStep with
  | none => m
  | some s => { m with curStep := some { s with messages := s.messages ++ msgs } }

/-- `Memory.GetSteps`. -/
def memGetSteps (m : Memory) : List StepRec := m.steps

/-- `Memory.GetToolCalls`: flattens `ToolCalls` over the stored steps. -/
def memGetToolCalls (m : Memory) : List ToolCallRec :=
  (m.steps.map (fun s => s.toolCalls)).flatten

/-- `Memory.GetMessages`: flattens `Messages` over the stored steps. -/
def memGetMessages (m : Memory) : List Message :=
  (m.steps.map (fun s => s.messages)).flatten

/-! ## String utilities

`strings.Index`, `strings.TrimSpace` and character classes used by the
parsers, over `List Char` (all exercised inputs are ASCII, so Go byte
indices coincide with character indices). -/

/-- `strings.Index`: index of the first occurrence of `pat` in `cs`, as an
`Option` instead of Go's `-1` sentinel. -/
def firstIdx (cs pat : List Char) : Option Nat :=
  match cs with
  | [] => if pat = [] then some 0 else none
  | _ :: rest =>
    if pat.isPrefixOf cs then some 0
    else (firstIdx rest pat).map (· + 1)

/-- Go `unicode.IsSpace` restricted to the ASCII whitespace the inputs use
(this is what both `strings.TrimSpace` and the regexp class `\s` see on the
exercised strings). -/
def isSpaceGo (c : Char) : Bool :=
  c = ' ' ∨ c = '\t' ∨ c = '\n' ∨ c = '\r'

/-- `strings.TrimSpace`. -/
def trimSpace (cs : List Char) : List Char :=
  ((cs.dropWhile isSpaceGo).reverse.dropWhile isSpaceGo).reverse

/-- The regexp class `\w` (`[0-9A-Za-z_]`). -/
def isWordChar (c : Char) : Bool :=
  ('a' ≤ c ∧ c ≤ 'z') ∨ ('A' ≤ c ∧ c ≤ 'Z') ∨ ('0' ≤ c ∧ c ≤ '9') ∨ c = '_'

def isDigitGo (c : Char) : Bool := '0' ≤ c ∧ c ≤ '9'

/-- Digits to a natural number (the `fmt.Sscanf("%d")` step on a `\d+`
match). -/
def digitsToNat (ds : List Char) : Nat :=
  ds.foldl (fun acc c => acc * 10 + (c.toNat - '0'.toNat)) 0

/-! ## `extractJSON` (`pkg/agents/agents.go`)

Translated statement by statement.  The Go code reassigns
`start = strings.Index(s[start:], "\n")`, i.e. it *replaces* the absolute
fence position with an index relative to the suffix instead of adding the
two; the model reproduces this as written. -/

def fenceChars : List Char := '`' :: '`' :: '`' :: []

def jsonFenceChars : List Char := fenceChars ++ ('j' :: 's' :: 'o' :: 'n' :: [])

/-- `extractJSON`: extracts the contents of the first fenced block, with the
source's relative/absolute index confusion preserved. -/
def extractJSON (s : String) : String :=
  let cs := s.toList
  -- start := Index(s, "```json"); if -1 then Index(s, "```")
  let start0 : Option Nat :=
    match firstIdx cs jsonFenceChars with
    | some i => some i
    | none => firstIdx cs fenceChars
  match start0 with
  | none => ""
  | some st =>
    -- start = Index(s[start:], "\n")  (relative index replaces the absolute one)
    match firstIdx (cs.drop st) ('\n' :: []) with
    | none => ""
    | some rel =>
      let start1 := rel + 1
      -- end := Index(s[start:], "```")
      match firstIdx (cs.drop start1) fenceChars with
      | none => ""
      | some e => String.mk (trimSpace ((cs.drop start1).take e))

/-! ## A mini JSON reader (the slice of `encoding/json` the agents use)

`json.Unmarshal` is Go-library code external to this repository; the agents
only need it to (a) reject non-JSON text and (b) decode an object's `tool`
string and `args` object.  The reader below models that slice: objects,
arrays, strings (with the basic escapes), integer/decimal literals, `true`,
`false`, `null`, insignificant whitespace, and whole-input consumption.
Numbers keep their literal text (Go decodes them into `float64`; no
arithmetic is done on them here).  Go's case-insensitive field matching is
not exercised by any input in this development and field lookup is modelled
as exact match. -/

inductive Json where
  | jnull
  | jbool (b : Bool)
  | jstr (s : String)
  | jnum (lit : String)
  | jarr (elems : List Json)
  | jobj (fields : List (String × Json))

/-- Parse a JSON string body after the opening quote; handles the escapes
`\" \\ \/ \n \t \r`. -/
def parseStrBody : List Char → List Char → Option (String × List Char)
  | [], _ => none
  | '"' :: rest, acc => some (String.mk acc.reverse, rest)
  | '\\' :: e :: rest, acc =>
    match e with
    | '"' => parseStrBody rest ('"' :: acc)
    | '\\' => parseStrBody rest ('\\' :: acc)
    | '/' => parseStrBody rest ('/' :: acc)
    | 'n' => parseStrBody rest ('\n' :: acc)
    | 't' => parseStrBody rest ('\t' :: acc)
    | 'r' => parseStrBody rest ('\r' :: acc)
    | _ => none
  | '\\' :: [], _ => none
  | c :: rest, acc => parseStrBody rest (c :: acc)

/-- Parse a number literal (optional minus, digits, optional fraction),
returning its text. -/
def parseNumLit (cs : List Char) : Option (String × List Char) :=
  let (neg, cs1) := match cs with
    | '-' :: rest => (true, rest)
    | _ => (false, cs)
  let intPart := cs1.takeWhile isDigitGo
  if intPart = [] then none
  else
    let rest1 := cs1.dropWhile isDigitGo
    let (fracPart, rest2) :=
      match rest1 with
      | '.' :: r =>
        let f := r.takeWhile isDigitGo
        if f = [] then ([], rest1) else ('.' :: f, r.dropWhile isDigitGo)
      | _ => ([], rest1)
    let lit := (if neg then ['-'] else []) ++ intPart ++ fracPart
    some (String.mk lit, rest2)

def skipWs (cs : List Char) : List Char := cs.dropWhile isSpaceGo

mutual

/-- Parse one JSON value (fuel-bounded; callers pass `length + 1`). -/
def parseVal : Nat → List Char → Option (Json × List Char)
  | 0, _ => none
  | fuel + 1, cs =>
    match skipWs cs with
    | '{' :: rest => parseObjFields fuel rest true
    | '[' :: rest => parseArrElems fuel rest true
    | '"' :: rest =>
      match parseStrBody rest [] with
      | some (s, r) => some (Json.jstr s, r)
      | none => none
    | 't' :: 'r' :: 'u' :: 'e' :: rest => some (Json.jbool true, rest)
    | 'f' :: 'a' :: 'l' :: 's' :: 'e' :: rest => some (Json.jbool false, rest)
    | 'n' :: 'u' :: 'l' :: 'l' :: rest => some (Json.jnull, rest)
    | other =>
      match parseNumLit other with
      | some (lit, r) => some (Json.jnum lit, r)
      | none => none

/-- Parse object members after `{` (when `first` is true a `}` may close the
empty object immediately). -/
def parseObjFields : Nat → List Char → Bool → Option (Json × List Char)
  | 0, _, _ => none
  | fuel + 1, cs, first =>
    match skipWs cs with
    | '}' :: rest => if first then some (Json.jobj [], rest) else none
    | '"' :: rest =>
      match parseStrBody rest [] with
      | none => none
      | some (key, r1) =>
        match skipWs r1 with
        | ':' :: r2 =>
          match parseVal fuel r2 with
          | none => none
          | some (v, r3) =>
            match skipWs r3 with
            | ',' :: r4 =>
              match parseObjFields fuel r4 false with
              | some (Json.jobj fs, r5) => some (Json.jobj ((key, v) :: fs), r5)
              | _ => none
            | '}' :: r4 => some (Json.jobj ((key, v) :: []), r4)
            | _ => none
        | _ => none
    | _ => none

/-- Parse array elements after `[`. -/
def parseArrElems : Nat → List Char → Bool → Option (Json × List Char)
  | 0, _, _ => none
  | fuel + 1, cs, first =>
    match skipWs cs with
    | ']' :: rest => if first then some (Json.jarr [], rest) else none
    | other =>
      match parseVal fuel other with
      | none => none
      | some (v, r1) =>
        match skipWs r1 with
        | ',' :: r2 =>
          match parseArrElems fuel r2 false with
          | some (Json.jarr es, r3) => some (Json.jarr (v :: es), r3)
          | _ => none
        | ']' :: r2 => some (Json.jarr (v :: []), r2)
        | _ => none

end

/-- Parse a complete JSON document (whole input must be consumed). -/
def parseJson (s : String) : Option Json :=
  let cs := s.toList
  match parseVal (cs.length + 1) cs with
  | none => none
  | some (v, rest) => if skipWs rest = [] then some v else none

mutual

/-- Decoding a JSON value into a Go `any` (`json.Unmarshal` into
`interface{}`): numbers become `float64`, objects `map[string]any`. -/
def jsonToGoVal : Json → GoVal
  | Json.jnull => GoVal.vnil
  | Json.jbool b => GoVal.vbool b
  | Json.jstr s => GoVal.vstr s
  | Json.jnum lit => GoVal.vfloat lit
  | Json.jarr es => GoVal.varr (jsonListToGoVals es)
  | Json.jobj fs => GoVal.vmap (jsonObjToGoVals fs)

def jsonListToGoVals : List Json → List GoVal
  | [] => []
  | j :: rest => jsonToGoVal j :: jsonListToGoVals rest

def jsonObjToGoVals : List (String × Json) → List (String × GoVal)
  | [] => []
  | (k, j) :: rest => (k, jsonToGoVal j) :: jsonObjToGoVals rest

end

def jsonLookup (fs : List (String × Json)) (k : String) : Option Json :=
  match fs with
  | [] => none
  | (k', v) :: rest => if k' = k then some v else jsonLookup rest k

/-- `json.Unmarshal(jsonStr, &call)` where `call` is
`struct { Tool string; Args map[string]any }`: invalid JSON is an error;
a non-object, non-null document is an error; unknown fields are ignored;
a missing `tool`/`args` leaves the zero value ("" / nil map); a `tool`
that is not a JSON string or an `args` that is not an object/null is an
error. -/
def unmarshalToolCall (s : String) : Except String (String × List (String × GoVal)) :=
  match parseJson s with
  | none => Except.error "invalid JSON"
  | some Json.jnull => Except.ok ("", [])
  | some (Json.jobj fs) =>
    let toolE : Except String String :=
      match jsonLookup fs "tool" with
      | none => Except.ok ""
      | some (Json.jstr t) => Except.ok t
      | some _ => Except.error "cannot unmarshal into field tool"
    match toolE with
    | Except.error e => Except.error e
    | Except.ok t =>
      match jsonLookup fs "args" with
      | none => Except.ok (t, [])
      | some Json.jnull => Except.ok (t, [])
      | some (Json.jobj afs) => Except.ok (t, jsonObjToGoVals afs)
      | some _ => Except.error "cannot unmarshal into field args"
  | some _ => Except.error "cannot unmarshal into struct"

/-! ## Code-block extraction (`CodeAgent` sources)

Models the three regexes used by the code agent:
`extractCodeBlocks` matches a triple-backtick fence, an optional word-only
language tag and a newline, then lazily up to the next triple backtick,
with non-overlapping leftmost scanning; `extractToolCallFromCode` first matches
`(\w+)\s*\((.*?)\)` (leftmost-first, `.` not matching a newline) and then
scans the argument text with
`(\w+)\s*=\s*(?:"([^"]*)"|'([^']*)'|(\d+(?:\.\d+)?))`. -/

/-- Try to match a fenced block starting exactly at `cs`: three backticks,
an optional word-character language tag, a newline, then the shortest run
up to the next three backticks.  Returns the block body and the text after
the closing fence. -/
def tryMatchBlock (cs : List Char) : Option (List Char × List Char) :=
  if fenceChars.isPrefixOf cs then
    let afterFence := cs.drop 3
    let afterTag := afterFence.dropWhile isWordChar
    match afterTag with
    | '\n' :: body =>
      match firstIdx body fenceChars with
      | some k => some (body.take k, body.drop (k + 3))
      | none => none
    | _ => none
  else none

/-- Leftmost non-overlapping scan for fenced blocks (a failed match attempt
advances one character, as the regexp engine does). -/
def scanBlocks : Nat → List Char → List (List Char)
  | 0, _ => []
  | _, [] => []
  | fuel + 1, c :: rest =>
    match tryMatchBlock (c :: rest) with
    | some (body, after) => body :: scanBlocks fuel after
    | none => scanBlocks fuel rest

/-- `extractCodeBlocks`. -/
def extractCodeBlocks (s : String) : List String :=
  (scanBlocks (s.length + 1) s.toList).map String.mk

/-- Try to match `(\w+)\s*\((.*?)\)` starting exactly at `cs`.  `\w+` is
forced to the full word run (a shorter take would leave a word character
where `\s*\(` must match); `(.*?)` is the shortest newline-free run before
`)`. -/
def tryCallAt (cs : List Char) : Option (List Char × List Char) :=
  let w := cs.takeWhile isWordChar
  if w = [] then none
  else
    match (cs.drop w.length).dropWhile isSpaceGo with
    | '(' :: r =>
      let argsChars := r.takeWhile (fun c => c ≠ ')' ∧ c ≠ '\n')
      match r.drop argsChars.length with
      | ')' :: _ => some (w, argsChars)
      | _ => none
    | _ => none

/-- Leftmost-first search for the call pattern (`FindStringSubmatch`). -/
def scanCall : Nat → List Char → Option (List Char × List Char)
  | 0, _ => none
  | _, [] => none
  | fuel + 1, c :: rest =>
    match tryCallAt (c :: rest) with
    | some m => some m
    | none => scanCall fuel rest

/-- One argument match at the current position:
`(\w+)\s*=\s*(?:"([^"]*)"|'([^']*)'|(\d+(?:\.\d+)?))`.  Returns the capture
groups `(name, g2, g3, g4)` and the rest of the input. -/
def tryArgAt (cs : List Char) : Option ((String × String × String × String) × List Char) :=
  let w := cs.takeWhile isWordChar
  if w = [] then none
  else
    match (cs.drop w.length).dropWhile isSpaceGo with
    | '=' :: r =>
      match r.dropWhile isSpaceGo with
      | '"' :: q =>
        let body := q.takeWhile (fun c => c ≠ '"')
        (match q.drop body.length with
         | '"' :: rest' => some ((String.mk w, String.mk body, "", ""), rest')
         | _ => none)
      | '\'' :: q =>
        let body := q.takeWhile (fun c => c ≠ '\'')
        (match q.drop body.length with
         | '\'' :: rest' => some ((String.mk w, "", String.mk body, ""), rest')
         | _ => none)
      | other =>
        let d := other.takeWhile isDigitGo
        if d = [] then none
        else
          let afterInt := other.drop d.length
          (match afterInt with
           | '.' :: f =>
             let fd := f.takeWhile isDigitGo
             if fd = [] then
               some ((String.mk w, "", "", String.mk d), afterInt)
             else
               some ((String.mk w, "", "", String.mk (d ++ '.' :: fd)),
                     f.drop fd.length)
           | _ => some ((String.mk w, "", "", String.mk d), afterInt))
    | _ => none

/-- `FindAllStringSubmatch` for the argument pattern: leftmost,
non-overlapping, a failed attempt advances one character. -/
def scanArgs : Nat → List Char → List (String × String × String × String)
  | 0, _ => []
  | _, [] => []
  | fuel + 1, c :: rest =>
    match tryArgAt (c :: rest) with
    | some (m, after) => m :: scanArgs fuel after
    | none => scanArgs fuel rest

/-- The loop over argument matches: double-quoted then single-quoted then
numeric group, numeric literals with a `.` read as floats, bare digits as
integers; when all groups are empty (an empty quoted string) the `any`
value stays nil.  Map assignment overwrites. -/
def buildCallArgs (ms : List (String × String × String × String)) :
    List (String × GoVal) :=
  ms.foldl
    (fun acc m =>
      let (name, g2, g3, g4) := m
      let v : GoVal :=
        if g2 ≠ "" then GoVal.vstr g2
        else if g3 ≠ "" then GoVal.vstr g3
        else if g4 ≠ "" then
          (if g4.toList.contains '.' then GoVal.vfloat g4
           else GoVal.vint (digitsToNat g4.toList))
        else GoVal.vnil
      insertA acc name v)
    []

/-- `CodeAgent.extractToolCallFromCode` given the registered tool names:
match the first call shape; if its identifier is not a known tool, report
no call (empty name); otherwise parse the argument list.  (The Go function
has an error return but never produces a non-nil error.) -/
def extractToolCallFromCode (toolNames : List String) (code : String) :
    String × List (String × GoVal) :=
  match scanCall (code.length + 1) code.toList with
  | none => ("", [])
  | some (w, argsChars) =>
    let toolName := String.mk w
    if toolNames.contains toolName then
      (toolName, buildCallArgs (scanArgs (argsChars.length + 1) argsChars))
    else ("", [])

/-! ## Tool layer (`pkg/tools/tools.go`)

Schema derivation works on `reflect.Kind`, modelled by `GoKind`.  Argument
preparation and `Execute` work on values; the parameter types of embedded
functions range over the closed universe `PType` (string, bool, int, and a
representative struct type mirroring the `Person` struct in the repository's
own tests). -/

/-- `reflect.Kind`, restricted to the cases `goTypeToJSONType` switches on
plus a representative unsupported kind (func/chan/pointer/...). -/
inductive GoKind where
  | kstring | kbool
  | kint | kint8 | kint16 | kint32 | kint64
  | kuint | kuint8 | kuint16 | kuint32 | kuint64
  | kfloat32 | kfloat64
  | kslice | karray
  | kmap | kstruct
  | kother
deriving DecidableEq

/-- A printable name for a kind (standing in for `reflect.Type.String()` in
generated description/error text). -/
def kindStr : GoKind → String
  | GoKind.kstring => "string"
  | GoKind.kbool => "bool"
  | GoKind.kint => "int"
  | GoKind.kint8 => "int8"
  | GoKind.kint16 => "int16"
  | GoKind.kint32 => "int32"
  | GoKind.kint64 => "int64"
  | GoKind.kuint => "uint"
  | GoKind.kuint8 => "uint8"
  | GoKind.kuint16 => "uint16"
  | GoKind.kuint32 => "uint32"
  | GoKind.kuint64 => "uint64"
  | GoKind.kfloat32 => "float32"
  | GoKind.kfloat64 => "float64"
  | GoKind.kslice => "slice"
  | GoKind.karray => "array"
  | GoKind.kmap => "map"
  | GoKind.kstruct => "struct"
  | GoKind.kother => "other"

/-- `goTypeToJSONType`: maps a parameter's kind to a JSON-schema type tag;
any other kind is an error. -/
def goTypeToJSONType (k : GoKind) : Except String String :=
  match k with
  | GoKind.kstring => Except.ok "string"
  | GoKind.kbool => Except.ok "boolean"
  | GoKind.kint | GoKind.kint8 | GoKind.kint16 | GoKind.kint32 | GoKind.kint64
  | GoKind.kuint | GoKind.kuint8 | GoKind.kuint16 | GoKind.kuint32
  | GoKind.kuint64 => Except.ok "integer"
  | GoKind.kfloat32 | GoKind.kfloat64 => Except.ok "number"
  | GoKind.kslice | GoKind.karray => Except.ok "array"
  | GoKind.kmap | GoKind.kstruct => Except.ok "object"
  | GoKind.kother => Except.error ("unsupported type: " ++ kindStr GoKind.kother)

/-- `tools.PropertyDef` (the optional `Enum`/`Default` fields are never set
by `createSchemaFromFunction` and are omitted). -/
structure PropertyDef where
  type : String
  description : String

/-- `tools.ToolSchema`.  Go's `Properties` is an unordered
`map[string]PropertyDef`; it is embedded as the association list in
insertion order (all inserted keys are distinct). -/
structure ToolSchema where
  type : String
  properties : List (String × PropertyDef)
  required : List String

/-- The deterministic positional parameter name `argN`
(`fmt.Sprintf("arg%d", i)`). -/
def argName (i : Nat) : String := "arg" ++ toString i

/-- The loop body of `createSchemaFromFunction`, from parameter index `i`. -/
def schemaFields (kinds : List GoKind) (i : Nat) :
    Except String (List (String × PropertyDef) × List String) :=
  match kinds with
  | [] => Except.ok ([], [])
  | k :: rest =>
    match goTypeToJSONType k with
    | Except.error e => Except.error e
    | Except.ok jt =>
      match schemaFields rest (i + 1) with
      | Except.error e => Except.error e
      | Except.ok (ps, rs) =>
        Except.ok
          ((argName i,
            { type := jt,
              description :=
                "Parameter " ++ toString i ++ " of type " ++ kindStr k }) :: ps,
           argName i :: rs)

/-- `createSchemaFromFunction`, over the list of parameter kinds of the
wrapped function's signature. -/
def createSchemaFromFunction (kinds : List GoKind) : Except String ToolSchema :=
  match schemaFields kinds 0 with
  | Except.error e => Except.error e
  | Except.ok (ps, rs) => Except.ok { type := "object", properties := ps, required := rs }

/-- Parameter types of embedded functions: the closed universe the
development instantiates `reflect.Type` with.  `pperson` is the struct
`Person { Name string; Age int }` from the repository's tool tests. -/
inductive PType where
  | pstring
  | pbool
  | pint
  | pperson
deriving DecidableEq

/-- `reflect.Zero(t)`. -/
def zeroVal : PType → GoVal
  | PType.pstring => GoVal.vstr ""
  | PType.pbool => GoVal.vbool false
  | PType.pint => GoVal.vint 0
  | PType.pperson => GoVal.vperson "" 0

/-- Whether a runtime value has exactly the declared type. -/
def hasType (v : GoVal) (t : PType) : Bool :=
  match v, t with
  | GoVal.vstr _, PType.pstring => true
  | GoVal.vbool _, PType.pbool => true
  | GoVal.vint _, PType.pint => true
  | GoVal.vperson _ _, PType.pperson => true
  | _, _ => false

/-- `reflect.Value.ConvertibleTo` on this universe.  Note that Go considers
an integer convertible to `string` (code-point conversion); maps and
structs of different types are not directly convertible. -/
def convertibleTo (v : GoVal) (t : PType) : Bool :=
  match v, t with
  | GoVal.vstr _, PType.pstring => true
  | GoVal.vbool _, PType.pbool => true
  | GoVal.vint _, PType.pint => true
  | GoVal.vint _, PType.pstring => true
  | GoVal.vfloat _, PType.pint => true
  | GoVal.vperson _ _, PType.pperson => true
  | _, _ => false

/-- The integer part of a stored float literal (`float64` to `int`
conversion truncates; the literals produced by this code base are
non-negative decimals). -/
def floatLitToInt (lit : String) : Int :=
  (digitsToNat (lit.toList.takeWhile isDigitGo) : Int)

/-- `reflect.Value.Convert` when `ConvertibleTo` holds: the identity on
same-typed values; an integer converts to the one-code-point string; a
float truncates to an integer. -/
def directConvert (v : GoVal) (t : PType) : GoVal :=
  match v, t with
  | GoVal.vint n, PType.pstring => GoVal.vstr (String.singleton (Char.ofNat n.toNat))
  | GoVal.vfloat lit, PType.pint => GoVal.vint (floatLitToInt lit)
  | _, _ => v

/-- The structural fallback of `convertArgument`: `json.Marshal` the value
and `json.Unmarshal` it into a fresh value of the target type, modelled as
the composite on this universe.  A JSON number with a fractional part does
not unmarshal into `int`; a JSON `null` leaves the zero value; only a JSON
object unmarshals into the struct type, requiring `Name` to be a string and
`Age` an integral number when present (absent fields keep their zero
values, unknown fields are ignored). -/
def jsonConvert (v : GoVal) (t : PType) : Option GoVal :=
  match v, t with
  | GoVal.vnil, _ => some (zeroVal t)
  | GoVal.vstr s, PType.pstring => some (GoVal.vstr s)
  | GoVal.vbool b, PType.pbool => some (GoVal.vbool b)
  | GoVal.vint n, PType.pint => some (GoVal.vint n)
  | GoVal.vfloat lit, PType.pint =>
    if lit.toList.contains '.' then none else some (GoVal.vint (floatLitToInt lit))
  | GoVal.vperson n a, PType.pperson => some (GoVal.vperson n a)
  | GoVal.vmap fs, PType.pperson =>
    let nameE : Option String :=
      match lookupA fs "Name" with
      | none => some ""
      | some (GoVal.vstr s) => some s
      | some _ => none
    let ageE : Option Int :=
      match lookupA fs "Age" with
      | none => some 0
      | some (GoVal.vint n) => some n
      | some (GoVal.vfloat lit) =>
        if lit.toList.contains '.' then none else some (floatLitToInt lit)
      | some _ => none
    match nameE, ageE with
    | some n, some a => some (GoVal.vperson n a)
    | _, _ => none
  | _, _ => none

/-- `convertArgument`: nil maps to the zero value, then direct conversion,
then the JSON round-trip, then failure. -/
def convertArgument (arg : GoVal) (t : PType) : Except String GoVal :=
  match arg with
  | GoVal.vnil => Except.ok (zeroVal t)
  | _ =>
    if convertibleTo arg t then Except.ok (directConvert arg t)
    else
      match jsonConvert arg t with
      | some v => Except.ok v
      | none => Except.error "failed to unmarshal argument"

/-- The loop of `prepareArguments`, from parameter index `i`: look up each
positional name, fail on the first missing or unconvertible argument. -/
def prepareArgs (params : List PType) (args : List (String × GoVal)) (i : Nat) :
    Except String (List GoVal) :=
  match params with
  | [] => Except.ok []
  | t :: rest =>
    match lookupA args (argName i) with
    | none => Except.error ("missing required argument: " ++ argName i)
    | some a =>
      match convertArgument a t with
      | Except.error e =>
        Except.error ("failed to convert argument " ++ argName i ++ ": " ++ e)
      | Except.ok v =>
        match prepareArgs rest args (i + 1) with
        | Except.error e => Except.error e
        | Except.ok vs => Except.ok (v :: vs)

/-- `prepareArguments`. -/
def prepareArguments (params : List PType) (args : List (String × GoVal)) :
    Except String (List GoVal) :=
  prepareArgs params args 0

/-- A `FunctionTool`: the wrapped function is its parameter type list, the
per-result flag of whether the return type implements `error`, and the
function body mapping well-shaped call arguments to the returned values
(`reflect.Value.Call` results; an error value is `verr`/`vnil`). -/
structure FunctionTool where
  name : String
  description : String
  params : List PType
  outIsError : List Bool
  fn : List GoVal → List GoVal

/-- Whether a returned value is a non-nil error (`results[i].IsNil()` is
false on the error slot). -/
def errOfVal : GoVal → Option String
  | GoVal.verr m => some m
  | _ => none

/-- `FunctionTool.Execute`: prepare arguments, call the function; with no
results return nil; when the signature has more than one result and the
last result type implements `error`, a non-nil last value short-circuits as
the failure, otherwise the first result is returned; with at most one
result the first result is returned as the success value. -/
def executeTool (ft : FunctionTool) (args : List (String × GoVal)) :
    GoVal × Option String :=
  match prepareArguments ft.params args with
  | Except.error e => (GoVal.vnil, some ("failed to prepare arguments: " ++ e))
  | Except.ok vals =>
    let results := ft.fn vals
    match results with
    | [] => (GoVal.vnil, none)
    | r0 :: _ =>
      let lastIdx := results.length - 1
      if results.length > 1 ∧ ft.outIsError.getD lastIdx false then
        match errOfVal (results.getD lastIdx GoVal.vnil) with
        | some e => (GoVal.vnil, some e)
        | none => (r0, none)
      else (r0, none)

/-! ## Agent layer (`pkg/agents/agents.go` and the agent variant sources)

The language model is an external capability (spec section 1); a run's
model is abstracted as the sequence of its response texts, indexed by the
call number.  A tool as seen by an agent (the `tools.Tool` interface) is
its name, its `Execute` behaviour, and the `FormatToolDescription` text
used in prompts (that text interleaves an unordered Go map and is treated
as an opaque per-tool string). -/

/-- The `tools.Tool` interface as consumed by agents. -/
structure ATool where
  name : String
  descText : String
  exec : List (String × GoVal) → GoVal × Option String

/-- The configuration fields shared by `BaseAgent`, `ToolCallingAgent` and
`CodeAgent` (tools, maxSteps, systemPrompt, name, description). -/
structure AgentCfg where
  tools : List ATool
  maxSteps : Nat
  systemPrompt : String
  name : String
  description : String

def defaultSystemPrompt : String :=
  "You are a helpful assistant that can use tools to help the user."

/-- The functional options (`agents.Option`).  `withMaxSteps` carries a Go
`int`, hence `Int`. -/
inductive AgentOption where
  | withMaxSteps (n : Int)
  | withSystemPrompt (s : String)
  | withName (s : String)
  | withDescription (s : String)

/-- One option application. -/
def applyOption (a : AgentCfg) : AgentOption → Except String AgentCfg
  | AgentOption.withMaxSteps n =>
    if n ≤ 0 then Except.error "maxSteps must be greater than 0"
    else Except.ok { a with maxSteps := n.toNat }
  | AgentOption.withSystemPrompt s => Except.ok { a with systemPrompt := s }
  | AgentOption.withName s => Except.ok { a with name := s }
  | AgentOption.withDescription s => Except.ok { a with description := s }

/-- The constructors' option loop, wrapping a failure as
`error applying option: …`. -/
def applyOptions (a : AgentCfg) : List AgentOption → Except String AgentCfg
  | [] => Except.ok a
  | o :: rest =>
    match applyOption a o with
    | Except.error e => Except.error ("error applying option: " ++ e)
    | Except.ok a' => applyOptions a' rest

/-- `NewBaseAgent`: validates the tool set and model, then applies the
options to the agent being built. -/
def newBaseAgent (tools : List ATool) (modelPresent : Bool)
    (opts : List AgentOption) : Except String AgentCfg :=
  if tools.length = 0 then Except.error "at least one tool is required"
  else if ¬ modelPresent then Except.error "model is required"
  else
    applyOptions
      { tools := tools, maxSteps := 20, systemPrompt := defaultSystemPrompt,
        name := "BaseAgent", description := "A base agent implementation" }
      opts

/-- `NewToolCallingAgent`: validates, then applies each option to a
*throwaway copy* of the agent's fields (the Go code constructs a fresh
`BaseAgent` literal from the fields and mutates that); only option errors
propagate — the configured values never reach the returned agent. -/
def newToolCallingAgent (tools : List ATool) (modelPresent : Bool)
    (opts : List AgentOption) : Except String AgentCfg :=
  if tools.length = 0 then Except.error "at least one tool is required"
  else if ¬ modelPresent then Except.error "model is required"
  else
    let agent : AgentCfg :=
      { tools := tools, maxSteps := 20, systemPrompt := defaultSystemPrompt,
        name := "ToolCallingAgent",
        description := "An agent specialized in calling tools and handling their output" }
    match applyOptions agent opts with
    | Except.error e => Except.error e
    | Except.ok _ => Except.ok agent

def codeAgentSystemPrompt : String :=
  "You are a helpful assistant that can use tools to help the user.\nYou will be given a user request, and your job is to create a final answer for the user.\nYou have access to tools that can help you fulfill the user's request.\nIf necessary, you can call these tools and use their output to craft a better answer.\nYou can also generate and execute code to solve complex problems.\nWhen you have the answer to the user's request, respond with the relevant information."

/-- `NewCodeAgent`: builds via `NewBaseAgent` (options do take effect),
then replaces still-default name/description/system prompt. -/
def newCodeAgent (tools : List ATool) (modelPresent : Bool)
    (opts : List AgentOption) : Except String AgentCfg :=
  match newBaseAgent tools modelPresent opts with
  | Except.error e => Except.error e
  | Except.ok base =>
    let a1 := if base.name = "BaseAgent" then { base with name := "CodeAgent" } else base
    let a2 :=
      if a1.description = "A base agent implementation" then
        { a1 with description := "An agent specialized in generating and executing code" }
      else a1
    let a3 :=
      if a2.systemPrompt = defaultSystemPrompt then
        { a2 with systemPrompt := codeAgentSystemPrompt }
      else a2
    Except.ok a3

/-- `findTool`: first tool whose name matches exactly. -/
def findTool (tools : List ATool) (name : String) : Option ATool :=
  tools.find? (fun t => t.name = name)

mutual

/-- `fmt.Sprintf("%v", …)` on this value universe. -/
def formatV : GoVal → String
  | GoVal.vnil => "<nil>"
  | GoVal.vstr s => s
  | GoVal.vint n => toString n
  | GoVal.vbool b => if b then "true" else "false"
  | GoVal.vfloat lit => lit
  | GoVal.vperson n a => "\x7b" ++ n ++ " " ++ toString a ++ "\x7d"
  | GoVal.vmap fs => "map[" ++ formatVFields fs ++ "]"
  | GoVal.varr es => "[" ++ formatVList es ++ "]"
  | GoVal.verr m => m

def formatVList : List GoVal → String
  | [] => ""
  | v :: [] => formatV v
  | v :: rest => formatV v ++ " " ++ formatVList rest

def formatVFields : List (String × GoVal) → String
  | [] => ""
  | (k, v) :: [] => k ++ ":" ++ formatV v
  | (k, v) :: rest => k ++ ":" ++ formatV v ++ " " ++ formatVFields rest

end

/-- `extractToolCall` (identical in `BaseAgent` and `ToolCallingAgent`):
no fenced block means no tool call; a block that fails to unmarshal is an
error; an empty `tool` field means no tool call. -/
def extractToolCall (response : String) :
    Except String (Option (String × List (String × GoVal))) :=
  let jsonStr := extractJSON response
  if jsonStr = "" then Except.ok none
  else
    match unmarshalToolCall jsonStr with
    | Except.error e => Except.error ("failed to parse tool call: " ++ e)
    | Except.ok (tool, args) =>
      if tool = "" then Except.ok none else Except.ok (some (tool, args))

/-- `executeToolCall` followed by the identical post-processing both step
strategies perform: wrap a failure as `failed to execute tool call: …`
(aborting the step), otherwise record the tool-role message and continue
with no final answer.  The invocation record is appended via `AddToolCall`
in every executed case, success or failure. -/
def execToolAndRecord (tools : List ATool) (mem : Memory) (toolName : String)
    (args : List (String × GoVal)) : Memory × Option GoVal × Option String :=
  match findTool tools toolName with
  | none => (mem, none, some ("failed to execute tool call: tool not found: " ++ toolName))
  | some t =>
    let (res, terr) := t.exec args
    let mem1 := memAddToolCall mem toolName args res terr
    match terr with
    | some e => (mem1, none, some ("failed to execute tool call: " ++ e))
    | none =>
      let mem2 :=
        memAppendCurMessages mem1
          [{ role := Role.tool, content := formatV res, name := toolName }]
      (mem2, none, none)

/-- `ToolCallingAgent.Step`, given the model's response text: record the
assistant message, then either fail on a malformed tool call, finish with
the raw response as the final answer, or dispatch the tool and continue. -/
def tcStep (tools : List ATool) (mem : Memory) (response : String) :
    Memory × Option GoVal × Option String :=
  let mem0 :=
    memAppendCurMessages mem [{ role := Role.assistant, content := response }]
  match extractToolCall response with
  | Except.error e => (mem0, none, some ("failed to extract tool call: " ++ e))
  | Except.ok none => (mem0, some (GoVal.vstr response), none)
  | Except.ok (some (toolName, args)) => execToolAndRecord tools mem0 toolName args

/-- The code agent's loop over extracted blocks: the first block whose
matched identifier is a registered tool name wins. -/
def firstKnownCall (names : List String) :
    List String → Option (String × List (String × GoVal))
  | [] => none
  | b :: rest =>
    let (n, args) := extractToolCallFromCode names b
    if n = "" then firstKnownCall names rest else some (n, args)

/-- `CodeAgent.Step`, given the model's response text: record the assistant
message; dispatch the first registered call found in a fenced block; else
fall back to the JSON extraction (which can itself fail the step); else the
raw response is the final answer. -/
def csStep (tools : List ATool) (mem : Memory) (response : String) :
    Memory × Option GoVal × Option String :=
  let mem0 :=
    memAppendCurMessages mem [{ role := Role.assistant, content := response }]
  let blocks := extractCodeBlocks response
  let names := tools.map (fun t => t.name)
  match firstKnownCall names blocks with
  | some (n, args) => execToolAndRecord tools mem0 n args
  | none =>
    match extractToolCall response with
    | Except.error e => (mem0, none, some ("failed to extract tool call: " ++ e))
    | Except.ok none => (mem0, some (GoVal.vstr response), none)
    | Except.ok (some (n, args)) => execToolAndRecord tools mem0 n args

/-- `buildToolsDescription`. -/
def buildToolsDescription (tools : List ATool) : String :=
  "You have access to the following tools:\n\n"
    ++ (tools.map (fun t => t.descText ++ "\n")).foldl (fun a b => a ++ b) ""
    ++ "To use a tool, respond with a message formatted as follows:\n```json\n\x7b\n  \"tool\": \"tool_name\",\n  \"args\": \x7b\n    \"arg1\": \"value1\",\n    \"arg2\": \"value2\"\n  \x7d\n\x7d\n```\nIf you want to provide a final answer, just respond with text instead.\n"

/-- `buildMessages`: the system prompt, the tools block (when any tools
exist), then every non-system message from memory, rebuilt from scratch. -/
def buildMessages (cfg : AgentCfg) (mem : Memory) : List Message :=
  let base : List Message := [{ role := Role.system, content := cfg.systemPrompt }]
  let withTools :=
    if cfg.tools.length > 0 then
      base ++ [{ role := Role.system, content := buildToolsDescription cfg.tools }]
    else base
  withTools ++ (memGetMessages mem).filter (fun m => m.role ≠ Role.system)

/-- The shared iteration of `Run` (identical text in `BaseAgent.Run` and
`ToolCallingAgent.Run`): open an action step on the freshly rebuilt prompt,
run the step function, and on an error or a non-nil result complete the
step and stop; otherwise complete the step and iterate.  `fuel` counts the
remaining iterations of `for step := 0; step < maxSteps; step++`. -/
def runLoop (cfg : AgentCfg)
    (stepF : Memory → Nat → Memory × Option GoVal × Option String) :
    Nat → Nat → Memory → Memory × Option GoVal × Option String
  | 0, _, mem => (mem, none, none)
  | fuel + 1, idx, mem =>
    let mem1 := memAddActionStep mem (buildMessages cfg mem)
    match stepF mem1 idx with
    | (mem2, _, some e) => (memCompleteCurrentStep mem2, none, some e)
    | (mem2, some v, none) => (memCompleteCurrentStep mem2, some v, none)
    | (mem2, none, none) => runLoop cfg stepF fuel (idx + 1) (memCompleteCurrentStep mem2)

/-- `Run`: reset the memory, record the system-prompt and task steps, then
iterate; finishing the loop with neither a final answer nor an error is the
step-budget exhaustion failure naming the agent's `maxSteps`. -/
def runAgent (cfg : AgentCfg) (task : String)
    (stepF : Memory → Nat → Memory × Option GoVal × Option String) :
    Memory × Except String GoVal :=
  let m1 :=
    memCompleteCurrentStep
      (memAddSystemPromptStep newMemory
        [{ role := Role.system, content := cfg.systemPrompt }])
  let m2 :=
    memCompleteCurrentStep
      (memAddTaskStep m1 [{ role := Role.user, content := task }])
  match runLoop cfg stepF cfg.maxSteps 0 m2 with
  | (mem, _, some e) => (mem, Except.error e)
  | (mem, some v, none) => (mem, Except.ok v)
  | (mem, none, none) =>
    (mem,
     Except.error
       ("agent reached maximum number of steps (" ++ toString cfg.maxSteps
         ++ ") without finding an answer"))

/-- `ToolCallingAgent.Run` with the model abstracted as its response
sequence (the step's `GenerateWithTools` result for the `idx`-th call). -/
def toolCallingRun (cfg : AgentCfg) (task : String) (modelF : Nat → String) :
    Memory × Except String GoVal :=
  runAgent cfg task (fun mem idx => tcStep cfg.tools mem (modelF idx))

/-- `CodeAgent.Run`: the promoted `BaseAgent.Run` statically calls
`BaseAgent.Step` (no stepper is ever installed and Go embedding does not
virtually dispatch), which returns its fixed error before consulting the
model.  The model is therefore not a parameter. -/
def codeAgentRun (cfg : AgentCfg) (task : String) : Memory × Except String GoVal :=
  runAgent cfg task
    (fun mem _ => (mem, none, some "Step method must be implemented by derived agents"))

/-! ## Statement-level predicates

Characterisations used by the theorem statements (not source translations):
the step-opening instruction kind, well-typedness of an argument mapping
against a parameter list, and the values such a mapping supplies. -/

/-- The four step-opening operations of the transcript. -/
inductive StepKind where
  | systemPrompt
  | task
  | action
  | planning

/-- Open one step of the given kind with the given messages. -/
def memOpenStep (m : Memory) (p : StepKind × List Message) : Memory :=
  match p.1 with
  | StepKind.systemPrompt => memAddSystemPromptStep m p.2
  | StepKind.task => memAddTaskStep m p.2
  | StepKind.action => memAddActionStep m p.2
  | StepKind.planning => memAddPlanningStep m p.2

/-- Open a step and close it via `CompleteCurrentStep`. -/
def memOpenClose (m : Memory) (p : StepKind × List Message) : Memory :=
  memCompleteCurrentStep (memOpenStep m p)

/-- The argument mapping supplies every positional key from index `i` on
with a value of the declared parameter type. -/
def paramsWellTyped (params : List PType) (args : List (String × GoVal)) (i : Nat) : Bool :=
  match params with
  | [] => true
  | t :: rest =>
    match lookupA args (argName i) with
    | some v => hasType v t && paramsWellTyped rest args (i + 1)
    | none => false

/-- The values the mapping supplies, in parameter order from index `i`. -/
def suppliedVals (params : List PType) (args : List (String × GoVal)) (i : Nat) : List GoVal :=
  match params with
  | [] => []
  | _ :: rest => (lookupA args (argName i)).getD GoVal.vnil :: suppliedVals rest args (i + 1)

/-! ## Fixtures

Concrete tools, responses and configurations used by the evaluation
theorems; they mirror the repository's own test fixtures. -/

/-- The mock tool of the agent tests: named `test_tool`, always succeeds. -/
def testTool : ATool :=
  { name := "test_tool", descText := "A test tool",
    exec := fun _ => (GoVal.vstr "tool output", none) }

/-- A tool named `add` whose execution succeeds with `3`. -/
def addTool : ATool :=
  { name := "add", descText := "Adds two numbers",
    exec := fun _ => (GoVal.vint 3, none) }

/-- A tool named `test_tool` whose execution fails. -/
def failTool : ATool :=
  { name := "test_tool", descText := "A failing tool",
    exec := fun _ => (GoVal.vnil, some "tool failed") }

/-- The model response carrying the structured tool call of the spec's test
vector, fenced and nothing before the fence. -/
def cleanResp : String :=
  "```json\n\x7b\"tool\": \"test_tool\", \"args\": \x7b\"arg1\": \"value1\"\x7d\x7d\n```"

/-- The same response with ordinary text before the fenced block. -/
def prefResp : String := "Okay.\n" ++ cleanResp

/-- A fenced block whose contents are not JSON. -/
def badJsonResp : String := "```json\nnot json\n```"

/-- The code-agent response of the spec's test vector. -/
def goResp : String := "```go\nresult = add(a=1, b=2)\n```"

/-- The code block body inside `goResp`. -/
def goBlock : String := "result = add(a=1, b=2)\n"

/-- A fenced code block calling an identifier that is not a registered
tool. -/
def badResp : String := "```go\nfoo = bar(x=1)\n```"

/-- The argument mapping parsed out of `goBlock`. -/
def addArgsParsed : List (String × GoVal) := [("a", GoVal.vint 1), ("b", GoVal.vint 2)]

/-- A memory with one open action step (the state a step strategy runs
in). -/
def memA : Memory := memAddActionStep newMemory []

/-- The configuration `NewToolCallingAgent` actually returns, whatever
options were passed. -/
def tcaDefaultCfg : AgentCfg :=
  { tools := [testTool], maxSteps := 20, systemPrompt := defaultSystemPrompt,
    name := "ToolCallingAgent",
    description := "An agent specialized in calling tools and handling their output" }

/-- The configuration `NewCodeAgent` returns for `WithMaxSteps(1)`. -/
def caCfg1 : AgentCfg :=
  { tools := [testTool], maxSteps := 1, systemPrompt := codeAgentSystemPrompt,
    name := "CodeAgent",
    description := "An agent specialized in generating and executing code" }

/-- A small tool-calling configuration with a step budget of 3. -/
def smallCfg : AgentCfg :=
  { tools := [testTool], maxSteps := 3, systemPrompt := defaultSystemPrompt,
    name := "ToolCallingAgent", description := "d" }

/-- A tool-calling configuration whose only tool fails on execution. -/
def failCfg : AgentCfg :=
  { tools := [failTool], maxSteps := 5, systemPrompt := defaultSystemPrompt,
    name := "ToolCallingAgent", description := "d" }

/-- The memory state of claim C1's scenario: an action step is opened, a
successful tool call is recorded into it, and the step is closed. -/
def c1Mem : Memory :=
  memCompleteCurrentStep
    (memAddToolCall
      (memAddActionStep newMemory [{ role := Role.user, content := "Use a tool" }])
      "test_tool" [("arg", GoVal.vstr "value")] (GoVal.vstr "result") none)

/-- The same scenario just before the step closes. -/
def c1MemOpen : Memory :=
  memAddToolCall
    (memAddActionStep newMemory [{ role := Role.user, content := "Use a tool" }])
    "test_tool" [("arg", GoVal.vstr "value")] (GoVal.vstr "result") none

/-! ## Helper lemmas -/

lemma memGetMessages_openClose (m : Memory) (p : StepKind × List Message) :
    memGetMessages (memOpenClose m p) = memGetMessages m ++ p.2 := by
  obtain ⟨k, msgs⟩ := p
  cases k <;>
    simp [memOpenClose, memOpenStep, memAddSystemPromptStep, memAddTaskStep,
      memAddActionStep, memAddPlanningStep, memAddStep, memCompleteCurrentStep,
      memGetMessages]

lemma memGetMessages_foldl (specs : List (StepKind × List Message)) :
    ∀ m : Memory,
      memGetMessages (specs.foldl memOpenClose m)
        = memGetMessages m ++ (specs.map Prod.snd).flatten := by
  induction specs with
  | nil => intro m; simp
  | cons p rest ih =>
    intro m
    simp only [List.foldl_cons, List.map_cons, List.flatten_cons]
    rw [ih, memGetMessages_openClose, List.append_assoc]

lemma goTypeToJSONType_ok (k : GoKind) (h : k ≠ GoKind.kother) :
    ∃ jt, goTypeToJSONType k = Except.ok jt := by
  cases k <;> simp [goTypeToJSONType] at h ⊢

lemma schemaFields_ok (kinds : List GoKind) :
    ∀ i, (∀ k ∈ kinds, k ≠ GoKind.kother) →
      ∃ ps rs, schemaFields kinds i = Except.ok (ps, rs) ∧
        ps.map Prod.fst = (List.range' i kinds.length).map argName ∧
        rs = (List.range' i kinds.length).map argName := by
  induction kinds with
  | nil => intro i _; exact ⟨[], [], rfl, by simp, by simp⟩
  | cons k rest ih =>
    intro i h
    obtain ⟨jt, hjt⟩ := goTypeToJSONType_ok k (h k (by simp))
    obtain ⟨ps, rs, hrec, hps, hrs⟩ := ih (i + 1) (fun k' hk' => h k' (by simp [hk']))
    refine ⟨(argName i,
        { type := jt,
          description := "Parameter " ++ toString i ++ " of type " ++ kindStr k }) :: ps,
      argName i :: rs, ?_, ?_, ?_⟩
    · simp only [schemaFields, hjt, hrec]
    · simp [List.length_cons, List.range'_succ, hps]
    · simp [List.length_cons, List.range'_succ, hrs]

lemma convertArgument_of_hasType (v : GoVal) (t : PType) (h : hasType v t = true) :
    convertArgument v t = Except.ok v := by
  cases v <;> cases t <;> simp [hasType] at h <;>
    simp [convertArgument, convertibleTo, directConvert]

lemma prepareArgs_of_wellTyped (params : List PType) (args : List (String × GoVal)) :
    ∀ i, paramsWellTyped params args i = true →
      prepareArgs params args i = Except.ok (suppliedVals params args i) := by
  induction params with
  | nil => intro i _; rfl
  | cons t rest ih =>
    intro i h
    simp only [paramsWellTyped] at h
    cases hl : lookupA args (argName i) with
    | none => rw [hl] at h; exact absurd h (by simp)
    | some v =>
      rw [hl] at h
      simp only [Bool.and_eq_true] at h
      simp only [prepareArgs, hl, convertArgument_of_hasType v t h.1, ih (i + 1) h.2,
        suppliedVals, hl, Option.getD_some]

lemma prepareArgs_append (pre post : List PType) (args : List (String × GoVal)) :
    ∀ i, prepareArgs (pre ++ post) args i =
      match prepareArgs pre args i with
      | Except.error e => Except.error e
      | Except.ok vs =>
        match prepareArgs post args (i + pre.length) with
        | Except.error e => Except.error e
        | Except.ok ws => Except.ok (vs ++ ws) := by
  induction pre with
  | nil =>
    intro i
    simp only [List.nil_append, prepareArgs, List.length_nil, Nat.add_zero]
    cases prepareArgs post args i <;> simp
  | cons t rest ih =>
    intro i
    simp only [List.cons_append, prepareArgs]
    cases lookupA args (argName i) with
    | none => rfl
    | some a =>
      dsimp only
      cases convertArgument a t with
      | error e => rfl
      | ok v =>
        dsimp only
        have ih' : prepareArgs (rest.append post) args (i + 1) =
            match prepareArgs rest args (i + 1) with
            | Except.error e => Except.error e
            | Except.ok vs =>
              match prepareArgs post args (i + 1 + rest.length) with
              | Except.error e => Except.error e
              | Except.ok ws => Except.ok (vs ++ ws) := ih (i + 1)
        rw [ih']
        have harith : i + 1 + rest.length = i + (t :: rest).length := by
          simp [List.length_cons]; omega
        rw [harith]
        cases prepareArgs rest args (i + 1) with
        | error e => rfl
        | ok vs =>
          cases prepareArgs post args (i + (t :: rest).length) <;> rfl

lemma firstIdx_eq_none_iff (pat : List Char) (hp : pat ≠ []) :
    ∀ cs : List Char, firstIdx cs pat = none ↔
      ∀ i, ¬ pat.isPrefixOf (cs.drop i) = true := by
  intro cs
  induction cs with
  | nil =>
    simp only [firstIdx, if_neg hp, List.drop_nil, true_iff]
    intro i hpre
    rw [List.isPrefixOf_iff_prefix] at hpre
    exact hp (List.prefix_nil.mp hpre)
  | cons c rest ih =>
    constructor
    · intro h i
      simp only [firstIdx] at h
      by_cases h0 : pat.isPrefixOf (c :: rest) = true
      · rw [if_pos h0] at h; exact absurd h (by simp)
      · rw [if_neg h0] at h
        cases i with
        | zero => simpa using h0
        | succ j =>
          have hnone : firstIdx rest pat = none := by
            cases hfi : firstIdx rest pat with
            | none => rfl
            | some k => rw [hfi] at h; simp at h
          exact (ih.mp hnone) j
    · intro h
      simp only [firstIdx]
      rw [if_neg (by simpa using h 0)]
      have : firstIdx rest pat = none := ih.mpr (fun i => by simpa using h (i + 1))
      rw [this]; rfl

lemma scanBlocks_eq_nil :
    ∀ (fuel : Nat) (cs : List Char),
      (∀ i, ¬ fenceChars.isPrefixOf (cs.drop i) = true) →
      scanBlocks fuel cs = [] := by
  intro fuel
  induction fuel with
  | zero => intro cs _; cases cs <;> rfl
  | succ f ih =>
    intro cs h
    cases cs with
    | nil => rfl
    | cons c rest =>
      have h0 : ¬ fenceChars.isPrefixOf (c :: rest) = true := by simpa using h 0
      simp only [scanBlocks, tryMatchBlock, if_neg h0]
      exact ih rest (fun i => by simpa using h (i + 1))

lemma jsonFence_firstIdx_none (cs : List Char)
    (h : firstIdx cs fenceChars = none) :
    firstIdx cs jsonFenceChars = none := by
  rw [firstIdx_eq_none_iff fenceChars (by decide)] at h
  rw [firstIdx_eq_none_iff jsonFenceChars (by decide)]
  intro i hpre
  apply h i
  rw [List.isPrefixOf_iff_prefix] at hpre ⊢
  exact List.IsPrefix.trans (List.prefix_append fenceChars _) hpre

lemma extractJSON_eq_empty (s : String)
    (h : firstIdx s.toList fenceChars = none) :
    extractJSON s = "" := by
  unfold extractJSON
  dsimp only
  rw [jsonFence_firstIdx_none s.toList h, h]

lemma extractCodeBlocks_eq_nil (s : String)
    (h : firstIdx s.toList fenceChars = none) :
    extractCodeBlocks s = [] := by
  unfold extractCodeBlocks
  rw [scanBlocks_eq_nil _ _ ((firstIdx_eq_none_iff fenceChars (by decide) s.toList).mp h)]
  rfl

/-! ## Claim theorems -/

/-- Claim C1.  The claim says a dispatched tool call's record is visible in
`GetToolCalls()`/`GetSteps()` after the step closes.  In the code the
record is appended to the detached step struct `curStep` points at, while
the views read the value copies stored in `Steps`; evaluating the embedded
memory code shows the record sits in the open step (first conjunct) but is
gone from both views once the step closes (second and third conjuncts),
and that a failing `Execute` still aborts the run with the tool's failure
while its record likewise never reaches the views (last two conjuncts). -/
theorem c1_toolcall_record_invisible_eval :
    (c1MemOpen.curStep.map fun s => s.toolCalls.map fun r => (r.name, r.arguments, r.error))
        = some [("test_tool", [("arg", GoVal.vstr "value")], "")] ∧
    memGetToolCalls c1Mem = [] ∧
    (memGetSteps c1Mem).map (fun s => s.toolCalls) = [[]] ∧
    (toolCallingRun failCfg "task" (fun _ => cleanResp)).2
        = Except.error "failed to execute tool call: tool failed" ∧
    memGetToolCalls (toolCallingRun failCfg "task" (fun _ => cleanResp)).1 = [] :=
  ⟨rfl, rfl, rfl, rfl, rfl⟩

set_option maxRecDepth 10000 in
/-- Claim C2.  `NewToolCallingAgent` applies each functional option to a
throwaway `BaseAgent` copy of its fields, so `WithMaxSteps(1)` is validated
but never reaches the returned agent: the budget stays 20, a model that
always answers with a tool call drives 20 iterations (22 recorded steps:
system prompt, task, and 20 action steps), and the exhaustion failure names
20, not the configured 1.  For `CodeAgent` the options do take effect, but
the promoted `BaseAgent.Run` statically calls `BaseAgent.Step` (no stepper
is ever installed), so its run aborts immediately with the
step-not-implemented failure instead of ever reaching exhaustion. -/
theorem c2_maxsteps_option_discarded_eval :
    newToolCallingAgent [testTool] true [AgentOption.withMaxSteps 1]
        = Except.ok tcaDefaultCfg ∧
    tcaDefaultCfg.maxSteps = 20 ∧
    (toolCallingRun tcaDefaultCfg "task" (fun _ => cleanResp)).2
        = Except.error "agent reached maximum number of steps (20) without finding an answer" ∧
    (toolCallingRun tcaDefaultCfg "task" (fun _ => cleanResp)).1.steps.length = 22 ∧
    newCodeAgent [testTool] true [AgentOption.withMaxSteps 1] = Except.ok caCfg1 ∧
    caCfg1.maxSteps = 1 ∧
    (codeAgentRun caCfg1 "task").2
        = Except.error "Step method must be implemented by derived agents" :=
  ⟨rfl, rfl, rfl, rfl, rfl, rfl, rfl⟩

/-- Claim C3, counterexample.  The claim says that whenever no fenced block
parses as a JSON object with a `tool` key, the step succeeds and returns
the raw response as the final answer.  For the response whose fenced block
holds `not json`, the embedded step instead fails with a parse error (and
in particular does not return the raw text). -/
theorem c3_unparsable_block_counterexample :
    (tcStep [testTool] memA badJsonResp).2
        = (none, some "failed to extract tool call: failed to parse tool call: invalid JSON") ∧
    (tcStep [testTool] memA badJsonResp).2 ≠ (some (GoVal.vstr badJsonResp), none) := by
  refine ⟨rfl, ?_⟩
  rw [show (tcStep [testTool] memA badJsonResp).2
      = (none, some "failed to extract tool call: failed to parse tool call: invalid JSON")
    from rfl]
  simp

/-- Claim C3, amended.  When the response contains no fenced block at all,
or its fenced block parses as a JSON object whose `tool` field is absent or
empty, the step succeeds and the raw response text is the final answer; a
fenced block that fails to parse as JSON is a step failure instead. -/
theorem c3_no_toolcall_final_answer (tools : List ATool) (mem : Memory) (r : String) :
    (extractJSON r = "" →
      tcStep tools mem r =
        (memAppendCurMessages mem [{ role := Role.assistant, content := r }],
         some (GoVal.vstr r), none)) ∧
    (∀ args, extractJSON r ≠ "" →
      unmarshalToolCall (extractJSON r) = Except.ok ("", args) →
      tcStep tools mem r =
        (memAppendCurMessages mem [{ role := Role.assistant, content := r }],
         some (GoVal.vstr r), none)) := by
  constructor
  · intro h
    simp [tcStep, extractToolCall, h]
  · intro args h1 h2
    simp [tcStep, extractToolCall, h1, h2]

/-- Witness for C3's theorem: a plain text response (no fence) and a fenced
JSON object with no `tool` key both end the step with the raw text as the
final answer. -/
theorem c3_no_toolcall_final_answer_witness :
    (extractJSON "This is a final answer" = "" ∧
      tcStep [testTool] memA "This is a final answer" =
        (memAppendCurMessages memA
          [{ role := Role.assistant, content := "This is a final answer" }],
         some (GoVal.vstr "This is a final answer"), none)) ∧
    (extractJSON "```json\n\x7b\"args\": \x7b\x7d\x7d\n```" ≠ "" ∧
      unmarshalToolCall (extractJSON "```json\n\x7b\"args\": \x7b\x7d\x7d\n```")
        = Except.ok ("", []) ∧
      tcStep [testTool] memA "```json\n\x7b\"args\": \x7b\x7d\x7d\n```" =
        (memAppendCurMessages memA
          [{ role := Role.assistant, content := "```json\n\x7b\"args\": \x7b\x7d\x7d\n```" }],
         some (GoVal.vstr "```json\n\x7b\"args\": \x7b\x7d\x7d\n```"), none)) :=
  ⟨⟨rfl, (c3_no_toolcall_final_answer [testTool] memA "This is a final answer").1 rfl⟩,
   ⟨by decide, rfl,
    (c3_no_toolcall_final_answer [testTool] memA "```json\n\x7b\"args\": \x7b\x7d\x7d\n```").2
      [] (by decide) rfl⟩⟩

/-- Claim C4.  With the fenced block at the start of the response the step
extracts `test_tool` with `arg1 = value1`, records the invocation and
continues (first two conjuncts).  But with any text before the fence the
claim fails: `extractJSON` overwrites the fence position with an index
relative to the suffix (instead of adding the two), mis-slices the response
into garbage still containing the opening fence, and the step aborts with a
parse failure instead of dispatching (last two conjuncts). -/
theorem c4_prefixed_fence_eval :
    (tcStep [testTool] memA cleanResp).2 = (none, none) ∧
    ((tcStep [testTool] memA cleanResp).1.curStep.map
        fun s => s.toolCalls.map fun r => (r.name, r.arguments))
      = some [("test_tool", [("arg1", GoVal.vstr "value1")])] ∧
    extractJSON prefResp
      = "`json\n\x7b\"tool\": \"test_tool\", \"args\": \x7b\"arg1\": \"value1\"\x7d\x7d" ∧
    (tcStep [testTool] memA prefResp).2
      = (none, some "failed to extract tool call: failed to parse tool call: invalid JSON") :=
  ⟨rfl, rfl, rfl, rfl⟩

/-- Claim C5, counterexample.  The claim says a fenced block calling an
unknown identifier falls through to the raw response as the final answer.
Instead, the code-agent step falls back to the JSON extraction, which
chokes on the non-JSON block contents and aborts the step. -/
theorem c5_unknown_call_counterexample :
    (csStep [addTool] memA badResp).2
        = (none, some "failed to extract tool call: failed to parse tool call: invalid JSON") ∧
    (csStep [addTool] memA badResp).2 ≠ (some (GoVal.vstr badResp), none) := by
  refine ⟨rfl, ?_⟩
  rw [show (csStep [addTool] memA badResp).2
      = (none, some "failed to extract tool call: failed to parse tool call: invalid JSON")
    from rfl]
  simp

/-- Claim C5, amended.  (1) The code block `result = add(a=1, b=2)` with a
registered `add` tool parses to the call `add` with `a = 1, b = 2` (bare
integers as integers); (2) the step dispatches that call, records it, and
continues with no final answer; (3) the raw response text is the final
answer when the response contains no fenced block at all — a fenced block
that yields no registered call instead falls into the JSON extraction,
which fails the step unless the block parses as JSON. -/
theorem c5_code_extraction_amended :
    extractToolCallFromCode ["add"] goBlock = ("add", addArgsParsed) ∧
    (∀ (t : ATool) (mem : Memory) (msgs : List Message) (v : GoVal),
      t.name = "add" →
      t.exec addArgsParsed = (v, none) →
      ∃ mem', csStep [t] (memAddActionStep mem msgs) goResp = (mem', none, none) ∧
        (mem'.curStep.map fun s => s.toolCalls.map fun r => (r.name, r.arguments))
          = some [("add", addArgsParsed)]) ∧
    (∀ (tools : List ATool) (mem : Memory) (r : String),
      firstIdx r.toList fenceChars = none →
      csStep tools mem r =
        (memAppendCurMessages mem [{ role := Role.assistant, content := r }],
         some (GoVal.vstr r), none)) := by
  refine ⟨rfl, ?_, ?_⟩
  · intro t mem msgs v hname hexec
    obtain ⟨n, d, ex⟩ := t
    simp only at hname hexec
    subst hname
    have hfk : firstKnownCall ["add"] (extractCodeBlocks goResp)
        = some ("add", addArgsParsed) := rfl
    refine
      ⟨{ steps := mem.steps ++
            [{ type := "action", messages := msgs, toolCalls := [], completed := false }],
         curStep := some
           { type := "action",
             messages := (msgs ++ [{ role := Role.assistant, content := goResp }])
               ++ [{ role := Role.tool, content := formatV v, name := "add" }],
             toolCalls := [{ name := "add", arguments := addArgsParsed,
                             output := v, error := "" }],
             completed := false } },
       ?_, ?_⟩
    · simp only [csStep, List.map, hfk, execToolAndRecord, findTool, List.find?]
      simp only [decide_True, if_pos rfl]
      rw [hexec]
      rfl
    · rfl
  · intro tools mem r h
    simp [csStep, extractCodeBlocks_eq_nil r h, firstKnownCall, extractToolCall,
      extractJSON_eq_empty r h]

/-- Witness for C5's theorem: the dispatch conjunct at the concrete `add`
tool and the fallthrough conjunct at a response with no fence. -/
theorem c5_code_extraction_amended_witness :
    (addTool.name = "add" ∧ addTool.exec addArgsParsed = (GoVal.vint 3, none) ∧
      ∃ mem', csStep [addTool] (memAddActionStep newMemory []) goResp
          = (mem', none, none) ∧
        (mem'.curStep.map fun s => s.toolCalls.map fun r => (r.name, r.arguments))
          = some [("add", addArgsParsed)]) ∧
    (firstIdx ("Just an answer").toList fenceChars = none ∧
      csStep [addTool] memA "Just an answer" =
        (memAppendCurMessages memA
          [{ role := Role.assistant, content := "Just an answer" }],
         some (GoVal.vstr "Just an answer"), none)) :=
  ⟨⟨rfl, rfl,
    (c5_code_extraction_amended.2.1 addTool newMemory [] (GoVal.vint 3) rfl rfl)⟩,
   ⟨rfl, c5_code_extraction_amended.2.2 [addTool] memA "Just an answer" rfl⟩⟩

/-- Claim C6.  For any sequence of steps opened (with their own message
lists, of any of the four kinds) and closed, `GetMessages` returns exactly
the concatenation of the supplied message lists in step-insertion order. -/
theorem c6_get_messages_concat (specs : List (StepKind × List Message)) :
    memGetMessages (specs.foldl memOpenClose newMemory)
      = (specs.map Prod.snd).flatten := by
  rw [memGetMessages_foldl]
  simp [newMemory, memGetMessages]

/-- Claim C7.  For every parameter list of schema-supported kinds, the
derived schema has type `object`, exactly one property per parameter named
`arg0 … arg(N-1)` in declaration order, and a required list of exactly
those names. -/
theorem c7_schema_arg_names (kinds : List GoKind)
    (h : ∀ k ∈ kinds, k ≠ GoKind.kother) :
    ∃ s, createSchemaFromFunction kinds = Except.ok s ∧
      s.type = "object" ∧
      s.properties.map Prod.fst = (List.range kinds.length).map argName ∧
      s.required = (List.range kinds.length).map argName := by
  obtain ⟨ps, rs, hsf, hps, hrs⟩ := schemaFields_ok kinds 0 h
  refine ⟨⟨"object", ps, rs⟩, ?_, rfl, ?_, ?_⟩
  · simp [createSchemaFromFunction, hsf]
  · rw [hps, List.range_eq_range']
  · rw [hrs, List.range_eq_range']

/-- Witness for C7: a five-parameter signature covering a string, an
integer kind, a float kind, a slice and a map. -/
theorem c7_schema_arg_names_witness :
    (∀ k ∈ [GoKind.kstring, GoKind.kint, GoKind.kfloat64, GoKind.kslice, GoKind.kmap],
        k ≠ GoKind.kother) ∧
    (∃ s, createSchemaFromFunction
          [GoKind.kstring, GoKind.kint, GoKind.kfloat64, GoKind.kslice, GoKind.kmap]
        = Except.ok s ∧
      s.type = "object" ∧
      s.properties.map Prod.fst = (List.range 5).map argName ∧
      s.required = (List.range 5).map argName) :=
  ⟨by decide,
   c7_schema_arg_names
     [GoKind.kstring, GoKind.kint, GoKind.kfloat64, GoKind.kslice, GoKind.kmap]
     (by decide)⟩

/-- Claim C8.  (a) An argument mapping supplying every positional key with
a value of the declared type makes `Execute` return the wrapped function's
result unchanged with no failure; (b) when the first problem the argument
loop meets is a missing key, `Execute` fails naming that missing argument;
(c) when it is a supplied value that neither direct conversion nor the
JSON round-trip can convert, `Execute` fails with the conversion error for
that argument. -/
theorem c8_execute_argument_contract (ft : FunctionTool) (args : List (String × GoVal)) :
    (∀ v : GoVal, paramsWellTyped ft.params args 0 = true →
      ft.fn (suppliedVals ft.params args 0) = [v] →
      executeTool ft args = (v, none)) ∧
    (∀ (pre : List PType) (t : PType) (post : List PType) (vs : List GoVal),
      ft.params = pre ++ t :: post →
      prepareArgs pre args 0 = Except.ok vs →
      lookupA args (argName pre.length) = none →
      executeTool ft args =
        (GoVal.vnil, some ("failed to prepare arguments: "
          ++ ("missing required argument: " ++ argName pre.length)))) ∧
    (∀ (pre : List PType) (t : PType) (post : List PType) (vs : List GoVal) (a : GoVal),
      ft.params = pre ++ t :: post →
      prepareArgs pre args 0 = Except.ok vs →
      lookupA args (argName pre.length) = some a →
      a ≠ GoVal.vnil →
      convertibleTo a t = false →
      jsonConvert a t = none →
      executeTool ft args =
        (GoVal.vnil, some ("failed to prepare arguments: "
          ++ ("failed to convert argument " ++ argName pre.length ++ ": "
            ++ "failed to unmarshal argument")))) := by
  refine ⟨?_, ?_, ?_⟩
  · intro v hw hfn
    rw [executeTool, prepareArguments, prepareArgs_of_wellTyped ft.params args 0 hw]
    simp [hfn]
  · intro pre t post vs hp hpre hmiss
    rw [executeTool, prepareArguments, hp, prepareArgs_append, hpre]
    simp only [Nat.zero_add, prepareArgs, hmiss]
  · intro pre t post vs a hp hpre hlook hnil hconv hjson
    rw [executeTool, prepareArguments, hp, prepareArgs_append, hpre]
    simp only [Nat.zero_add, prepareArgs, hlook]
    have hca : convertArgument a t = Except.error "failed to unmarshal argument" := by
      cases a <;> simp at hnil <;> simp [convertArgument, hconv, hjson]
    rw [hca]

/-- Witness for C8, mirroring the repository's own tool tests: the
two-integer `add` tool executed with complete typed arguments returns the
function's result; omitting `arg1` fails naming it; supplying the string
`not a number` for an integer parameter fails with the conversion error. -/
theorem c8_execute_argument_contract_witness :
    (paramsWellTyped [PType.pint, PType.pint]
        [("arg0", GoVal.vint 5), ("arg1", GoVal.vint 7)] 0 = true ∧
      executeTool
        { name := "add", description := "Adds two numbers",
          params := [PType.pint, PType.pint], outIsError := [false],
          fn := fun _ => [GoVal.vint 12] }
        [("arg0", GoVal.vint 5), ("arg1", GoVal.vint 7)] = (GoVal.vint 12, none)) ∧
    (executeTool
        { name := "add", description := "Adds two numbers",
          params := [PType.pint, PType.pint], outIsError := [false],
          fn := fun _ => [GoVal.vint 12] }
        [("arg0", GoVal.vint 5)] =
      (GoVal.vnil, some ("failed to prepare arguments: "
        ++ ("missing required argument: " ++ argName 1)))) ∧
    (executeTool
        { name := "add", description := "Adds two numbers",
          params := [PType.pint, PType.pint], outIsError := [false],
          fn := fun _ => [GoVal.vint 12] }
        [("arg0", GoVal.vstr "not a number"), ("arg1", GoVal.vint 7)] =
      (GoVal.vnil, some ("failed to prepare arguments: "
        ++ ("failed to convert argument " ++ argName 0 ++ ": "
          ++ "failed to unmarshal argument")))) :=
  ⟨⟨rfl,
    (c8_execute_argument_contract
        { name := "add", description := "Adds two numbers",
          params := [PType.pint, PType.pint], outIsError := [false],
          fn := fun _ => [GoVal.vint 12] }
        [("arg0", GoVal.vint 5), ("arg1", GoVal.vint 7)]).1
      (GoVal.vint 12) rfl rfl⟩,
   (c8_execute_argument_contract
        { name := "add", description := "Adds two numbers",
          params := [PType.pint, PType.pint], outIsError := [false],
          fn := fun _ => [GoVal.vint 12] }
        [("arg0", GoVal.vint 5)]).2.1
      [PType.pint] PType.pint [] [GoVal.vint 5] rfl rfl rfl,
   (c8_execute_argument_contract
        { name := "add", description := "Adds two numbers",
          params := [PType.pint, PType.pint], outIsError := [false],
          fn := fun _ => [GoVal.vint 12] }
        [("arg0", GoVal.vstr "not a number"), ("arg1", GoVal.vint 7)]).2.2
      [] PType.pint [PType.pint] [] (GoVal.vstr "not a number")
      rfl rfl rfl (fun h => GoVal.noConfusion h) rfl rfl⟩

/-- Claim C9, counterexample.  The claim says an empty step outcome — in
particular the empty-string model response treated as final text — does not
terminate the run.  With a budget of 3 and a model that always answers with
the empty string, the embedded run terminates on the very first iteration
(3 recorded steps: system prompt, task, one action step) reporting the
empty string as the final answer: in Go an empty string stored in an `any`
result is non-nil, so the loop treats it as a final answer. -/
theorem c9_empty_answer_counterexample :
    (toolCallingRun smallCfg "task" (fun _ => "")).2 = Except.ok (GoVal.vstr "") ∧
    (toolCallingRun smallCfg "task" (fun _ => "")).1.steps.length = 3 :=
  ⟨rfl, rfl⟩

/-- Claim C9, amended.  In the shared loop, a step that reports no failure
terminates the run with its result as the final answer whenever that
result is non-nil — including the empty string — and only a nil (absent)
result closes the step and continues to the next iteration. -/
theorem c9_loop_result_dispatch (cfg : AgentCfg)
    (stepF : Memory → Nat → Memory × Option GoVal × Option String)
    (fuel idx : Nat) (mem mem2 : Memory) (res : Option GoVal)
    (h : stepF (memAddActionStep mem (buildMessages cfg mem)) idx = (mem2, res, none)) :
    runLoop cfg stepF (fuel + 1) idx mem =
      match res with
      | some v => (memCompleteCurrentStep mem2, some v, none)
      | none => runLoop cfg stepF fuel (idx + 1) (memCompleteCurrentStep mem2) := by
  simp only [runLoop, h]
  cases res <;> rfl

/-- Witness for C9's theorem: a step function returning the (non-nil)
empty string terminates the loop with that empty string. -/
theorem c9_loop_result_dispatch_witness :
    ((fun (mem : Memory) (_ : Nat) => (mem, some (GoVal.vstr ""), (none : Option String)))
        (memAddActionStep newMemory (buildMessages smallCfg newMemory)) 0
      = (memAddActionStep newMemory (buildMessages smallCfg newMemory),
         some (GoVal.vstr ""), none)) ∧
    runLoop smallCfg
        (fun mem _ => (mem, some (GoVal.vstr ""), none)) 1 0 newMemory
      = (memCompleteCurrentStep
           (memAddActionStep newMemory (buildMessages smallCfg newMemory)),
         some (GoVal.vstr ""), none) :=
  ⟨rfl,
   c9_loop_result_dispatch smallCfg
     (fun mem _ => (mem, some (GoVal.vstr ""), none)) 0 0 newMemory
     (memAddActionStep newMemory (buildMessages smallCfg newMemory))
     (some (GoVal.vstr "")) rfl⟩

/-- Claim C10.  When the wrapped function's signature has exactly one
return value of an error type, `Execute` returns that (possibly non-nil)
error value as the success result with no failure — the short-circuit in
the result handling requires more than one return value (second conjunct:
with two returns whose last is a non-nil error, the call does fail). -/
theorem c10_single_error_return (ft : FunctionTool) (args : List (String × GoVal))
    (vals : List GoVal) :
    (∀ r : GoVal, ft.outIsError = [true] →
      prepareArguments ft.params args = Except.ok vals →
      ft.fn vals = [r] →
      executeTool ft args = (r, none)) ∧
    (∀ (v : GoVal) (e : String), ft.outIsError = [false, true] →
      prepareArguments ft.params args = Except.ok vals →
      ft.fn vals = [v, GoVal.verr e] →
      executeTool ft args = (GoVal.vnil, some e)) := by
  constructor
  · intro r _ hprep hfn
    rw [executeTool, hprep]
    simp [hfn]
  · intro v e hsig hprep hfn
    rw [executeTool, hprep]
    simp [hfn, hsig, errOfVal]

/-- Witness for C10: a zero-parameter tool returning one non-nil error
value yields that error value as the success result; with a second return
slot the same error aborts the call. -/
theorem c10_single_error_return_witness :
    (executeTool
        { name := "e", description := "d", params := [], outIsError := [true],
          fn := fun _ => [GoVal.verr "boom"] } []
      = (GoVal.verr "boom", none)) ∧
    (executeTool
        { name := "e2", description := "d", params := [], outIsError := [false, true],
          fn := fun _ => [GoVal.vstr "x", GoVal.verr "boom"] } []
      = (GoVal.vnil, some "boom")) :=
  ⟨(c10_single_error_return
      { name := "e", description := "d", params := [], outIsError := [true],
        fn := fun _ => [GoVal.verr "boom"] } [] []).1
    (GoVal.verr "boom") rfl rfl rfl,
   (c10_single_error_return
      { name := "e2", description := "d", params := [], outIsError := [false, true],
        fn := fun _ => [GoVal.vstr "x", GoVal.verr "boom"] } [] []).2
    (GoVal.vstr "x") "boom" rfl rfl rfl⟩

end Smol
